import Mathlib

/-!
Shallow embedding of the job scheduler of `src/core/scheduler.py`
(classes `Job` and `Scheduler`).

Modelling conventions:
- Wall-clock time (`datetime`) is modelled as naive seconds since an epoch
  (`Nat`).  Every call of `datetime.now()` in the Python source becomes an
  explicit time parameter of the corresponding Lean function.
- `datetime.max` (used by `pause_job`) is modelled by a dedicated value
  `DTime.dmax`, strictly above every finite time, matching the fact that a
  real `datetime.now()` is always strictly below `datetime.max`.
- The job's callable (`func`, with `args`/`kwargs`) is opaque to the
  scheduler; only whether an invocation raised, and the message if it did,
  matter.  An invocation's behaviour is therefore passed in as a
  `RunOutcome` parameter.  Threading is elided: dispatching a job to an
  execution thread is modelled as applying `Job.run` to the registry entry;
  the dispatch wrapper `_execute_job` catches the exception re-raised by
  `Job.run`, which is modelled by recording the `RunResult` instead of
  propagating it.
- The registry `self.jobs : Dict[str, Job]` is an association list with
  Python-dict semantics: assignment to an existing key replaces in place,
  assignment to a fresh key appends, `del` removes the entry.
- Python truthiness of `self.interval` (an `Optional[int]`): `None` and `0`
  are falsy, every other value truthy.  This is captured by `intervalTruthy`.
- Logging statements, `thread` handles and the `args`/`kwargs` fields are
  elided: no claim observes them.
-/

/-- A naive timestamp: a finite number of seconds, or `datetime.max`. -/
inductive DTime where
  | fin (t : Nat) : DTime
  | dmax : DTime
deriving DecidableEq, Repr

/-- `dle a b` models the Python comparison `a <= b` on datetimes, where
`dmax` stands for `datetime.max` (every finite time is strictly below it). -/
def dle : DTime → DTime → Bool
  | DTime.fin a, DTime.fin b => a ≤ b
  | DTime.fin _, DTime.dmax => true
  | DTime.dmax, DTime.fin _ => false
  | DTime.dmax, DTime.dmax => true

/-- The `JobStatus` enum of `scheduler.py`. -/
inductive JobStatus where
  | pending
  | running
  | completed
  | failed
  | cancelled
deriving DecidableEq, Repr

/-- Behaviour of one invocation of the job's callable: it either returns
normally or raises an exception carrying a message (Python `str(e)`). -/
inductive RunOutcome where
  | ok : RunOutcome
  | err (msg : String) : RunOutcome
deriving DecidableEq, Repr

/-- What one call of `Job.run` did: returned without invoking the callable
(the `if self.cancelled or self.is_running: return` guard), completed
normally, or re-raised the callable's exception with the given message. -/
inductive RunResult where
  | skipped : RunResult
  | completed : RunResult
  | raised (msg : String) : RunResult
deriving DecidableEq, Repr

/-- The mutable state of a Python `Job` object (class `Job`,
`scheduler.py`).  `func`/`args`/`kwargs` and the `thread` handle are elided
(opaque to the scheduler). -/
structure Job where
  name : String
  interval : Option Nat
  run_at : Option Nat
  status : JobStatus
  last_run : Option Nat
  next_run : DTime
  run_count : Nat
  error_count : Nat
  last_error : Option String
  is_running : Bool
  cancelled : Bool
deriving DecidableEq, Repr

/-- Python truthiness of the `Optional[int]` field `interval`:
`if self.interval:` is false for `None` and for `0`. -/
def intervalTruthy : Option Nat → Bool
  | none => false
  | some n => n != 0

/-- `Job.__init__`: `next_run = run_at if run_at else datetime.now()`
(a `datetime` object is always truthy, so `run_at=None` is the only falsy
case), statistics zeroed, flags cleared. -/
def mkJob (name : String) (interval : Option Nat) (run_at : Option Nat)
    (now : Nat) : Job :=
  { name := name
    interval := interval
    run_at := run_at
    status := JobStatus.pending
    last_run := none
    next_run := match run_at with
      | some t => DTime.fin t
      | none => DTime.fin now
    run_count := 0
    error_count := 0
    last_error := none
    is_running := false
    cancelled := false }

/-- `Job.should_run`: `False` if cancelled, `False` if running, else
`datetime.now() >= self.next_run`. -/
def Job.should_run (j : Job) (now : Nat) : Bool :=
  if j.cancelled then false
  else if j.is_running then false
  else dle j.next_run (DTime.fin now)

/-- `Job.run`.  `outcome` is what invoking the callable does; `t1` is the
value of the `datetime.now()` call assigned to `last_run`, `t2` the value of
the second `datetime.now()` call used to compute `next_run` (the source
calls `now()` twice in the success branch).  Returns the updated job state
and what happened (`skipped` for the early-return guard, `raised m` when the
exception propagates to the caller; the `finally` block clears `is_running`
on both the success and the error path). -/
def Job.run (j : Job) (outcome : RunOutcome) (t1 t2 : Nat) : Job × RunResult :=
  if j.cancelled || j.is_running then (j, RunResult.skipped)
  else
    let j1 := { j with is_running := true, status := JobStatus.running }
    match outcome with
    | RunOutcome.ok =>
        let j2 := { j1 with
          last_run := some t1
          run_count := j1.run_count + 1
          status := JobStatus.completed }
        let j3 := if intervalTruthy j2.interval then
            { j2 with next_run := DTime.fin (t2 + j2.interval.getD 0) }
          else j2
        ({ j3 with is_running := false }, RunResult.completed)
    | RunOutcome.err m =>
        let j2 := { j1 with
          error_count := j1.error_count + 1
          last_error := some m
          status := JobStatus.failed }
        ({ j2 with is_running := false }, RunResult.raised m)

/-- `Job.cancel`: sets `cancelled = True`, `status = CANCELLED`. -/
def Job.cancel (j : Job) : Job :=
  { j with cancelled := true, status := JobStatus.cancelled }

/-- `self.jobs[name] = job` on a Python dict: replace in place when the key
is present, otherwise append at the end (insertion order preserved). -/
def insertJob (l : List (String × Job)) (name : String) (j : Job) :
    List (String × Job) :=
  if l.any (fun p => p.1 == name) then
    l.map (fun p => if p.1 == name then (name, j) else p)
  else l ++ [(name, j)]

/-- Apply `f` to the job stored under `name` (mutation of the object
returned by `self.jobs.get(name)`; keys are unique by construction, so at
most one entry changes). -/
def updateJob (l : List (String × Job)) (name : String) (f : Job → Job) :
    List (String × Job) :=
  l.map (fun p => if p.1 == name then (p.1, f p.2) else p)

/-- `self.jobs.get(name)` on a Python dict. -/
def jobsLookup (l : List (String × Job)) (name : String) : Option Job :=
  (l.find? (fun p => p.1 == name)).map Prod.snd

/-- The mutable state of a Python `Scheduler` object.  The logger and the
background-thread handle are elided. -/
structure Scheduler where
  jobs : List (String × Job)
  running : Bool
deriving DecidableEq, Repr

/-- `Scheduler.__init__`: empty registry, not running. -/
def Scheduler.empty : Scheduler :=
  { jobs := [], running := false }

/-- `Scheduler.get_job`. -/
def Scheduler.get_job (s : Scheduler) (name : String) : Option Job :=
  jobsLookup s.jobs name

/-- `Scheduler.add_job`: builds a fresh `Job` and stores it under `name`
(replacing any existing entry; the source only logs a warning on
replacement, it performs no other action on the superseded job).  Returns
the new scheduler state and the created job, as the source returns `job`. -/
def Scheduler.add_job (s : Scheduler) (name : String) (interval : Option Nat)
    (run_at : Option Nat) (now : Nat) : Scheduler × Job :=
  let j := mkJob name interval run_at now
  ({ s with jobs := insertJob s.jobs name j }, j)

/-- `Scheduler.add_interval_job`: sugar for `add_job` with `interval` set
and no `run_at`. -/
def Scheduler.add_interval_job (s : Scheduler) (name : String)
    (interval : Nat) (now : Nat) : Scheduler × Job :=
  s.add_job name (some interval) none now

/-- `now.replace(hour=hour, minute=minute, second=0, microsecond=0)` in
seconds-since-epoch: keep the day of `now`, zero everything below the
minute. -/
def todayAt (now hour minute : Nat) : Nat :=
  (now / 86400) * 86400 + hour * 3600 + minute * 60

/-- `Scheduler.add_cron_job`: `next_run` is today at `hour:minute`, pushed
to tomorrow when `next_run <= now`; the job is registered via `add_job`
with `interval = 86400` and `run_at = next_run`. -/
def Scheduler.add_cron_job (s : Scheduler) (name : String)
    (now hour minute : Nat) : Scheduler × Job :=
  let nr0 := todayAt now hour minute
  let nr := if nr0 ≤ now then nr0 + 86400 else nr0
  s.add_job name (some 86400) (some nr) now

/-- `Scheduler.remove_job`: when present, the entry's job is cancelled and
the entry deleted (the cancelled object survives only through references
the caller holds); returns `True` iff an entry was deleted. -/
def Scheduler.remove_job (s : Scheduler) (name : String) : Scheduler × Bool :=
  if s.jobs.any (fun p => p.1 == name) then
    ({ s with jobs := s.jobs.filter (fun p => !(p.1 == name)) }, true)
  else (s, false)

/-- `Scheduler.pause_job`: when the job exists, sets its `next_run` to
`datetime.max` and returns `True`. -/
def Scheduler.pause_job (s : Scheduler) (name : String) : Scheduler × Bool :=
  match s.get_job name with
  | some _ =>
      let l := updateJob s.jobs name (fun j => { j with next_run := DTime.dmax })
      ({ s with jobs := l }, true)
  | none => (s, false)

/-- `Scheduler.resume_job`: `if job and job.interval:` — requires the job
to exist and its interval to be truthy; then sets `next_run` to
`datetime.now()` and returns `True`. -/
def Scheduler.resume_job (s : Scheduler) (name : String) (now : Nat) :
    Scheduler × Bool :=
  match s.get_job name with
  | some j =>
      if intervalTruthy j.interval then
        let l := updateJob s.jobs name (fun j' => { j' with next_run := DTime.fin now })
        ({ s with jobs := l }, true)
      else (s, false)
  | none => (s, false)

/-- `Scheduler.run_job_now`: when the job exists, dispatches it via
`_execute_job` (which calls `job.run()` in a wrapper that catches the
re-raised exception) and returns `True` — with no look at `should_run`,
`next_run` or `is_running`.  The components are the new scheduler state,
the boolean return value, and what the dispatched `Job.run` call did
(`none` when no job was dispatched). -/
def Scheduler.run_job_now (s : Scheduler) (name : String)
    (outcome : RunOutcome) (t1 t2 : Nat) : Scheduler × Bool × Option RunResult :=
  match s.get_job name with
  | some j =>
      let r := j.run outcome t1 t2
      ({ s with jobs := updateJob s.jobs name (fun _ => r.1) }, true, some r.2)
  | none => (s, false, none)

/-- The fields of the dict returned by `Scheduler.get_status` that the
claims observe (`running`, `total_jobs`, `active_jobs`); the per-job detail
list is elided. -/
structure SchedStatus where
  running : Bool
  total_jobs : Nat
  active_jobs : Nat
deriving DecidableEq, Repr

/-- `Scheduler.get_status`: `total_jobs = len(self.jobs)`,
`active_jobs = sum(1 for j in self.jobs.values() if not j.cancelled)`. -/
def Scheduler.get_status (s : Scheduler) : SchedStatus :=
  { running := s.running
    total_jobs := s.jobs.length
    active_jobs := (s.jobs.filter (fun p => !p.2.cancelled)).length }

/-- `Scheduler.clear_all_jobs`: `remove_job` on every registered name
(iterating over a snapshot of the keys). -/
def Scheduler.clear_all_jobs (s : Scheduler) : Scheduler :=
  (s.jobs.map Prod.fst).foldl (fun acc n => (acc.remove_job n).1) s

/-- Every mutation the source applies to an existing `Job` object:
`Job.cancel` (also called by `remove_job`), `Job.run` (called by the poll
loop's dispatch and by `run_job_now`), and the `next_run` assignments of
`pause_job` (`datetime.max`) and `resume_job` (`datetime.now()`).  No other
statement in `scheduler.py` writes to a `Job` that already exists
(`add_job` constructs a fresh object). -/
inductive JobOp where
  | cancel : JobOp
  | run (outcome : RunOutcome) (t1 t2 : Nat) : JobOp
  | setNextRun (d : DTime) : JobOp
deriving DecidableEq, Repr

/-- Apply one `JobOp` to a job. -/
def applyJobOp (j : Job) : JobOp → Job
  | JobOp.cancel => j.cancel
  | JobOp.run outcome t1 t2 => (j.run outcome t1 t2).1
  | JobOp.setNextRun d => { j with next_run := d }

/-- Apply a sequence of `JobOp`s, oldest first. -/
def applyJobOps (j : Job) : List JobOp → Job
  | [] => j
  | op :: ops => applyJobOps (applyJobOp j op) ops

/-- A call of `add_job` or `remove_job` on a scheduler, with the argument
values the call receives (`now` is the `datetime.now()` observed by the
`Job` constructor). -/
inductive RegOp where
  | add (name : String) (interval : Option Nat) (run_at : Option Nat) (now : Nat) : RegOp
  | remove (name : String) : RegOp
deriving DecidableEq, Repr

/-- Run a sequence of `add_job`/`remove_job` calls, counting along the way
how many `add` calls found their name absent from the registry (fresh
inserts) and how many `remove_job` calls returned `True`.  Result:
`(final scheduler, fresh adds, successful removes)`. -/
def applyRegOps : Scheduler → List RegOp → Scheduler × Nat × Nat
  | s, [] => (s, 0, 0)
  | s, RegOp.add n i r t :: ops =>
      let fresh : Nat := if s.jobs.any (fun p => p.1 == n) then 0 else 1
      let rest := applyRegOps (s.add_job n i r t).1 ops
      (rest.1, rest.2.1 + fresh, rest.2.2)
  | s, RegOp.remove n :: ops =>
      let r := s.remove_job n
      let rest := applyRegOps r.1 ops
      (rest.1, rest.2.1, rest.2.2 + (if r.2 then 1 else 0))

/-- The number of `add` calls in a sequence of registry operations. -/
def countAddOps (ops : List RegOp) : Nat :=
  ops.countP (fun op => match op with
    | RegOp.add _ _ _ _ => true
    | RegOp.remove _ => false)

/-- One call of any registry-mutating public `Scheduler` method, with the
argument values it receives (return values are dropped; `start`/`stop` and
the query methods do not touch the registry). -/
inductive SchedOp where
  | add (name : String) (interval : Option Nat) (run_at : Option Nat) (now : Nat) : SchedOp
  | addInterval (name : String) (interval : Nat) (now : Nat) : SchedOp
  | addCron (name : String) (now hour minute : Nat) : SchedOp
  | remove (name : String) : SchedOp
  | pause (name : String) : SchedOp
  | resume (name : String) (now : Nat) : SchedOp
  | runNow (name : String) (outcome : RunOutcome) (t1 t2 : Nat) : SchedOp
  | clear : SchedOp
deriving DecidableEq, Repr

/-- Apply one scheduler method call to the scheduler state. -/
def applySchedOp (s : Scheduler) : SchedOp → Scheduler
  | SchedOp.add n i r t => (s.add_job n i r t).1
  | SchedOp.addInterval n i t => (s.add_interval_job n i t).1
  | SchedOp.addCron n t h m => (s.add_cron_job n t h m).1
  | SchedOp.remove n => (s.remove_job n).1
  | SchedOp.pause n => (s.pause_job n).1
  | SchedOp.resume n t => (s.resume_job n t).1
  | SchedOp.runNow n o t1 t2 => (s.run_job_now n o t1 t2).1
  | SchedOp.clear => s.clear_all_jobs

/-- Apply a sequence of scheduler method calls, oldest first. -/
def applySchedOps (s : Scheduler) : List SchedOp → Scheduler
  | [] => s
  | op :: ops => applySchedOps (applySchedOp s op) ops

/-- Every job in the registry has `cancelled = False`. -/
def allActive (s : Scheduler) : Prop :=
  ∀ p ∈ s.jobs, p.2.cancelled = false

/-! ### Helper lemmas (shared) -/

/-- `Job.run` never writes the `cancelled` flag. -/
theorem run_preserves_cancelled (j : Job) (o : RunOutcome) (t1 t2 : Nat) :
    (j.run o t1 t2).1.cancelled = j.cancelled := by
  by_cases hg : (j.cancelled || j.is_running) = true
  · simp [Job.run, hg]
  · cases o with
    | ok => simp [Job.run, hg]; split <;> rfl
    | err m => simp [Job.run, hg]

/-- No mutation the source applies to an existing job clears `cancelled`. -/
theorem applyJobOp_preserves_cancelled (j : Job) (op : JobOp)
    (h : j.cancelled = true) : (applyJobOp j op).cancelled = true := by
  cases op with
  | cancel => simp [applyJobOp, Job.cancel]
  | run o t1 t2 => rw [applyJobOp, run_preserves_cancelled]; exact h
  | setNextRun d => simpa [applyJobOp] using h

/-- Sequences of job mutations preserve `cancelled = true`. -/
theorem applyJobOps_preserves_cancelled (ops : List JobOp) :
    ∀ j : Job, j.cancelled = true → (applyJobOps j ops).cancelled = true := by
  induction ops with
  | nil => intro j h; exact h
  | cons op ops ih =>
      intro j h
      exact ih (applyJobOp j op) (applyJobOp_preserves_cancelled j op h)

/-- Looking up `name` after updating the job stored under `name`. -/
theorem jobsLookup_updateJob (l : List (String × Job)) (name : String)
    (f : Job → Job) :
    jobsLookup (updateJob l name f) name = (jobsLookup l name).map f := by
  induction l with
  | nil => rfl
  | cons p l ih =>
      obtain ⟨k, j⟩ := p
      simp only [jobsLookup, updateJob, List.map_cons] at ih ⊢
      by_cases h : (k == name) = true
      · simp [h]
      · simp only [h, if_false, Bool.false_eq_true]
        rw [List.find?_cons_of_neg _ (by simpa using h),
          List.find?_cons_of_neg _ (by simpa using h)]
        exact ih

/-- Registry membership test for the source idiom `name in self.jobs`:
it agrees with membership in the key list. -/
theorem any_key_iff_mem (l : List (String × Job)) (name : String) :
    (l.any (fun p => p.1 == name) = true) ↔ name ∈ l.map Prod.fst := by
  rw [List.any_eq_true]
  constructor
  · rintro ⟨p, hp, hpe⟩
    exact List.mem_map.mpr ⟨p, hp, by simpa using hpe⟩
  · intro hm
    obtain ⟨p, hp, hpe⟩ := List.mem_map.mp hm
    exact ⟨p, hp, by simpa using hpe⟩

theorem insertJob_length_mem (l : List (String × Job)) (name : String) (j : Job)
    (h : l.any (fun p => p.1 == name) = true) :
    (insertJob l name j).length = l.length := by
  simp [insertJob, h]

theorem insertJob_length_not_mem (l : List (String × Job)) (name : String) (j : Job)
    (h : l.any (fun p => p.1 == name) = false) :
    (insertJob l name j).length = l.length + 1 := by
  simp [insertJob, h]

theorem insertJob_keys_mem (l : List (String × Job)) (name : String) (j : Job)
    (h : l.any (fun p => p.1 == name) = true) :
    (insertJob l name j).map Prod.fst = l.map Prod.fst := by
  simp only [insertJob, h, if_true, List.map_map]
  apply List.map_congr_left
  intro p _
  by_cases hps : p.1 = name
  · simp [hps]
  · simp [hps]

theorem insertJob_keys_nodup (l : List (String × Job)) (name : String) (j : Job)
    (hnd : (l.map Prod.fst).Nodup) :
    ((insertJob l name j).map Prod.fst).Nodup := by
  by_cases h : l.any (fun p => p.1 == name) = true
  · rw [insertJob_keys_mem l name j h]
    exact hnd
  · have hnm : name ∉ l.map Prod.fst := by
      rw [← any_key_iff_mem]
      exact h
    have hb : l.any (fun p => p.1 == name) = false := Bool.eq_false_iff.mpr h
    simp only [insertJob, hb, Bool.false_eq_true, if_false, List.map_append]
    rw [List.nodup_append_comm]
    have : (List.map Prod.fst [(name, j)] ++ List.map Prod.fst l) =
        name :: List.map Prod.fst l := rfl
    rw [this]
    exact List.nodup_cons.mpr ⟨hnm, hnd⟩

theorem remove_filter_length (l : List (String × Job)) (name : String)
    (hmem : l.any (fun p => p.1 == name) = true)
    (hnd : (l.map Prod.fst).Nodup) :
    (l.filter (fun p => !(p.1 == name))).length + 1 = l.length := by
  induction l with
  | nil => simp at hmem
  | cons p l ih =>
      simp only [List.map_cons, List.nodup_cons] at hnd
      by_cases h : (p.1 == name) = true
      · have hname : p.1 = name := by simpa using h
        have hall : l.filter (fun q => !(q.1 == name)) = l := by
          apply List.filter_eq_self.mpr
          intro q hq
          have hne : q.1 ≠ name := by
            intro hqn
            apply hnd.1
            have hq1 : q.1 ∈ l.map Prod.fst := List.mem_map_of_mem Prod.fst hq
            rw [hqn, ← hname] at hq1
            exact hq1
          simp [hne]
        simp [List.filter_cons, h, hall]
      · have hmem2 : l.any (fun q => q.1 == name) = true := by
          simpa [List.any_cons, h] using hmem
        simp only [List.filter_cons, h, Bool.not_false, if_true, List.length_cons]
        rw [← ih hmem2 hnd.2]

theorem filter_keys_nodup (l : List (String × Job)) (pred : String × Job → Bool)
    (hnd : (l.map Prod.fst).Nodup) :
    ((l.filter pred).map Prod.fst).Nodup :=
  List.Nodup.sublist (List.Sublist.map Prod.fst (List.filter_sublist l)) hnd

theorem jobsLookup_insertJob_self (l : List (String × Job)) (name : String)
    (j : Job) : jobsLookup (insertJob l name j) name = some j := by
  by_cases h : l.any (fun p => p.1 == name) = true
  · simp only [insertJob, h, if_true]
    induction l with
    | nil => simp at h
    | cons p l ih =>
        by_cases hp : (p.1 == name) = true
        · simp only [List.map_cons, if_pos hp, jobsLookup]
          rw [List.find?_cons_of_pos]
          · rfl
          · simp
        · have h2 : l.any (fun q => q.1 == name) = true := by
            simpa [List.any_cons, hp] using h
          simp only [List.map_cons, if_neg hp, jobsLookup] at ih ⊢
          rw [List.find?_cons_of_neg]
          · exact ih h2
          · exact hp
  · have hb : l.any (fun p => p.1 == name) = false := Bool.eq_false_iff.mpr h
    have hnone : l.find? (fun p => p.1 == name) = none :=
      List.find?_eq_none.mpr (List.any_eq_false.mp hb)
    simp only [insertJob, hb, Bool.false_eq_true, if_false, jobsLookup]
    rw [List.find?_append, hnone]
    simp

theorem countP_key_eq_zero (l : List (String × Job)) (name : String)
    (h : l.any (fun p => p.1 == name) = false) :
    l.countP (fun p => p.1 == name) = 0 :=
  List.countP_eq_zero.mpr (List.any_eq_false.mp h)

theorem countP_key_of_nodup_mem (l : List (String × Job)) (name : String)
    (hnd : (l.map Prod.fst).Nodup)
    (hmem : l.any (fun p => p.1 == name) = true) :
    l.countP (fun p => p.1 == name) = 1 := by
  induction l with
  | nil => simp at hmem
  | cons p l ih =>
      simp only [List.map_cons, List.nodup_cons] at hnd
      by_cases h : (p.1 == name) = true
      · have hname : p.1 = name := by simpa using h
        have hz : l.countP (fun q => q.1 == name) = 0 := by
          apply List.countP_eq_zero.mpr
          intro q hq hqn
          apply hnd.1
          have hq1 : q.1 ∈ l.map Prod.fst := List.mem_map_of_mem Prod.fst hq
          have hqe : q.1 = name := by simpa using hqn
          rw [hqe, ← hname] at hq1
          exact hq1
        simp [List.countP_cons, h, hz]
      · have hmem2 : l.any (fun q => q.1 == name) = true := by
          simpa [List.any_cons, h] using hmem
        simp [List.countP_cons, h, ih hnd.2 hmem2]

theorem insertJob_countP_self (l : List (String × Job)) (name : String) (j : Job)
    (hnd : (l.map Prod.fst).Nodup) :
    (insertJob l name j).countP (fun p => p.1 == name) = 1 := by
  by_cases h : l.any (fun p => p.1 == name) = true
  · have hmem2 : (insertJob l name j).any (fun p => p.1 == name) = true := by
      rw [any_key_iff_mem, insertJob_keys_mem l name j h, ← any_key_iff_mem]
      exact h
    exact countP_key_of_nodup_mem _ name (insertJob_keys_nodup l name j hnd) hmem2
  · have hb : l.any (fun p => p.1 == name) = false := Bool.eq_false_iff.mpr h
    simp [insertJob, hb, List.countP_append, countP_key_eq_zero l name hb,
      List.countP_cons]

/-! ### Theorems -/

/-- C1: `should_run()` returns true iff the job is not cancelled, not
currently running, and the current time is at or past `next_run`. -/
theorem c1_should_run_iff (j : Job) (now : Nat) :
    j.should_run now = (!j.cancelled && !j.is_running && dle j.next_run (DTime.fin now)) := by
  unfold Job.should_run
  cases j.cancelled <;> cases j.is_running <;> simp

/-- C2 (amended): when the callable returns normally (which requires the
entry guard to pass, i.e. the job is neither cancelled nor already
running), `run()` sets `last_run` to the completion time, increments
`run_count` by exactly one, sets status to `COMPLETED`, clears
`is_running`; when `interval` is set *and nonzero* it sets `next_run` to
the completion time plus the interval, while for `interval` unset or zero
(`if self.interval:` is falsy on `0`) it leaves `next_run` unchanged. -/
theorem c2_run_success_amended (j : Job) (t1 t2 : Nat)
    (hc : j.cancelled = false) (hr : j.is_running = false) :
    (j.run RunOutcome.ok t1 t2).1.last_run = some t1 ∧
    (j.run RunOutcome.ok t1 t2).1.run_count = j.run_count + 1 ∧
    (j.run RunOutcome.ok t1 t2).1.status = JobStatus.completed ∧
    (j.run RunOutcome.ok t1 t2).2 = RunResult.completed ∧
    (j.run RunOutcome.ok t1 t2).1.is_running = false ∧
    (∀ i, j.interval = some i → i ≠ 0 →
      (j.run RunOutcome.ok t1 t2).1.next_run = DTime.fin (t2 + i)) ∧
    ((j.interval = none ∨ j.interval = some 0) →
      (j.run RunOutcome.ok t1 t2).1.next_run = j.next_run) := by
  cases j with
  | mk name interval run_at status last_run next_run run_count error_count last_error is_running cancelled =>
    simp only at hc hr
    subst hc hr
    refine ⟨?_, ?_, ?_, ?_, ?_, ?_, ?_⟩
    case _ => simp [Job.run]; split <;> rfl
    case _ => simp [Job.run]; split <;> rfl
    case _ => simp [Job.run]; split <;> rfl
    case _ => simp [Job.run]
    case _ => simp [Job.run]
    case _ =>
      intro i hi hiz
      simp only at hi
      subst hi
      simp [Job.run, intervalTruthy, hiz]
    case _ =>
      rintro (hi | hi) <;> simp only at hi <;> subst hi <;> simp [Job.run, intervalTruthy]

/-- C2 witness: a concrete successful run of a job with interval `10`. -/
theorem c2_run_success_witness :
    ((mkJob "a" (some 10) none 0).run RunOutcome.ok 5 6).1.run_count = 1 ∧
    ((mkJob "a" (some 10) none 0).run RunOutcome.ok 5 6).1.next_run = DTime.fin 16 := by
  have h := c2_run_success_amended (mkJob "a" (some 10) none 0) 5 6 (by decide) (by decide)
  exact ⟨by simpa using h.2.1, h.2.2.2.2.2.1 10 (by decide) (by decide)⟩

/-- C2 counterexample: a job with `interval = 0` (set, but falsy in
Python).  Its callable returns normally at time 5, yet `next_run` stays at
its old value `100` instead of becoming completion time plus interval
(`5 + 0`), refuting the claim that `next_run` is updated whenever
`interval` is set. -/
theorem c2_interval_zero_cx :
    (mkJob "c" (some 0) (some 100) 0).interval = some 0 ∧
    (mkJob "c" (some 0) (some 100) 0).cancelled = false ∧
    (mkJob "c" (some 0) (some 100) 0).is_running = false ∧
    ((mkJob "c" (some 0) (some 100) 0).run RunOutcome.ok 5 5).2 = RunResult.completed ∧
    ((mkJob "c" (some 0) (some 100) 0).run RunOutcome.ok 5 5).1.next_run = DTime.fin 100 ∧
    ((mkJob "c" (some 0) (some 100) 0).run RunOutcome.ok 5 5).1.next_run ≠ DTime.fin (5 + 0) := by
  decide

/-- C3: when the callable raises (entry guard passed), `run()` increments
`error_count` by exactly one, records the message in `last_error`, sets
status to `FAILED` and re-raises; and for every outcome of the callable,
`is_running` is false when `run()` returns or re-raises. -/
theorem c3_run_failure (j : Job) (m : String) (t1 t2 : Nat)
    (hc : j.cancelled = false) (hr : j.is_running = false) :
    (j.run (RunOutcome.err m) t1 t2).1.error_count = j.error_count + 1 ∧
    (j.run (RunOutcome.err m) t1 t2).1.last_error = some m ∧
    (j.run (RunOutcome.err m) t1 t2).1.status = JobStatus.failed ∧
    (j.run (RunOutcome.err m) t1 t2).2 = RunResult.raised m ∧
    (∀ outcome, (j.run outcome t1 t2).1.is_running = false) := by
  cases j with
  | mk name interval run_at status last_run next_run run_count error_count last_error is_running cancelled =>
    simp only at hc hr
    subst hc hr
    refine ⟨by simp [Job.run], by simp [Job.run], by simp [Job.run], by simp [Job.run], ?_⟩
    intro outcome
    cases outcome <;> simp [Job.run]

/-- C3 witness: a concrete failing run. -/
theorem c3_run_failure_witness :
    ((mkJob "a" (some 10) none 0).run (RunOutcome.err "boom") 5 6).1.error_count = 1 ∧
    ((mkJob "a" (some 10) none 0).run (RunOutcome.err "boom") 5 6).1.last_error = some "boom" ∧
    ((mkJob "a" (some 10) none 0).run (RunOutcome.err "boom") 5 6).1.is_running = false := by
  have h := c3_run_failure (mkJob "a" (some 10) none 0) "boom" 5 6 (by decide) (by decide)
  exact ⟨by simpa using h.1, h.2.1, h.2.2.2.2 (RunOutcome.err "boom")⟩

/-- C5: once a job's `cancelled` flag is true, every further sequence of
mutations the source can apply to that job object (`cancel`, `run`, the
`next_run` writes of `pause_job`/`resume_job`) leaves `cancelled` true, and
`should_run()` returns false at every time. -/
theorem c5_cancelled_is_permanent (j : Job) (h : j.cancelled = true)
    (ops : List JobOp) (now : Nat) :
    (applyJobOps j ops).cancelled = true ∧
    (applyJobOps j ops).should_run now = false := by
  have hc := applyJobOps_preserves_cancelled ops j h
  exact ⟨hc, by simp [Job.should_run, hc]⟩

/-- C5 witness: a cancelled job stays cancelled and non-runnable across a
concrete operation sequence (resume-style reset, a run attempt, a pause). -/
theorem c5_cancelled_is_permanent_witness :
    (applyJobOps (mkJob "a" (some 10) none 0).cancel
      [JobOp.setNextRun (DTime.fin 0), JobOp.run RunOutcome.ok 1 2,
        JobOp.setNextRun DTime.dmax]).cancelled = true ∧
    (applyJobOps (mkJob "a" (some 10) none 0).cancel
      [JobOp.setNextRun (DTime.fin 0), JobOp.run RunOutcome.ok 1 2,
        JobOp.setNextRun DTime.dmax]).should_run 50 = false :=
  c5_cancelled_is_permanent (mkJob "a" (some 10) none 0).cancel (by decide)
    [JobOp.setNextRun (DTime.fin 0), JobOp.run RunOutcome.ok 1 2,
      JobOp.setNextRun DTime.dmax] 50

/-- C6: `add_cron_job(name, work, hour=H, minute=M)` called at `now` sets
the new job's `interval` to 86400 seconds, and its `next_run` to today at
`H:M` when `now` is before today's `H:M`, and to tomorrow at `H:M` (today's
`H:M` plus 86400) when `now` is at or past today's `H:M`; the computed fire
time has zero seconds within its minute. -/
theorem c6_add_cron_job (s : Scheduler) (name : String) (now hour minute : Nat)
    (_hh : hour < 24) (_hm : minute < 60) :
    (s.add_cron_job name now hour minute).2.interval = some 86400 ∧
    (now < todayAt now hour minute →
      (s.add_cron_job name now hour minute).2.next_run =
        DTime.fin (todayAt now hour minute)) ∧
    (todayAt now hour minute ≤ now →
      (s.add_cron_job name now hour minute).2.next_run =
        DTime.fin (todayAt now hour minute + 86400)) ∧
    todayAt now hour minute % 60 = 0 := by
  refine ⟨rfl, ?_, ?_, ?_⟩
  · intro hlt
    have hn : ¬ (todayAt now hour minute ≤ now) := by omega
    simp [Scheduler.add_cron_job, Scheduler.add_job, mkJob, hn]
  · intro hle
    simp [Scheduler.add_cron_job, Scheduler.add_job, mkJob, hle]
  · simp only [todayAt]
    omega

/-- C6 witness: concrete calls before and after today's 01:30. -/
theorem c6_add_cron_job_witness :
    (Scheduler.empty.add_cron_job "c" 3700 1 30).2.next_run = DTime.fin 5400 ∧
    (Scheduler.empty.add_cron_job "c" 6000 1 30).2.next_run = DTime.fin 91800 ∧
    (Scheduler.empty.add_cron_job "c" 6000 1 30).2.interval = some 86400 := by
  have h1 := c6_add_cron_job Scheduler.empty "c" 3700 1 30 (by decide) (by decide)
  have h2 := c6_add_cron_job Scheduler.empty "c" 6000 1 30 (by decide) (by decide)
  exact ⟨by simpa using h1.2.1 (by decide), by simpa using h2.2.2.1 (by decide), h2.1⟩

/-- C7 (amended): `run_job_now(name)` on a registered job returns true and
dispatches `Job.run` unconditionally — no `should_run()` check, and the
dispatched run's behaviour is independent of `next_run`; `run_job_now`
itself neither reads nor writes `is_running`, but the dispatched
`Job.run()` re-checks `cancelled`/`is_running` itself, so the callable is
invoked exactly when the job is neither cancelled nor already marked
running (an already-executing job is skipped, not run concurrently). -/
theorem c7_run_job_now_amended (s : Scheduler) (name : String) (j : Job)
    (o : RunOutcome) (t1 t2 : Nat) (h : s.get_job name = some j) :
    (s.run_job_now name o t1 t2).2.1 = true ∧
    (s.run_job_now name o t1 t2).2.2 = some (j.run o t1 t2).2 ∧
    ((j.run o t1 t2).2 ≠ RunResult.skipped ↔
      (j.cancelled = false ∧ j.is_running = false)) ∧
    (∀ d : DTime, (Job.run { j with next_run := d } o t1 t2).2 = (j.run o t1 t2).2) := by
  refine ⟨?_, ?_, ?_, ?_⟩
  · simp [Scheduler.run_job_now, h]
  · simp [Scheduler.run_job_now, h]
  · cases hc : j.cancelled <;> cases hr : j.is_running <;> cases o <;>
      simp [Job.run, hc, hr]
  · intro d
    cases hc : j.cancelled <;> cases hr : j.is_running <;> cases o <;>
      simp [Job.run, hc, hr]

/-- C7 witness: forcing a due-in-the-future, idle job runs its callable. -/
theorem c7_run_job_now_witness :
    ((⟨[("x", mkJob "x" (some 10) (some 999) 0)], false⟩ : Scheduler).run_job_now
      "x" RunOutcome.ok 7 7).2.1 = true ∧
    ((⟨[("x", mkJob "x" (some 10) (some 999) 0)], false⟩ : Scheduler).run_job_now
      "x" RunOutcome.ok 7 7).2.2 = some RunResult.completed := by
  have h := c7_run_job_now_amended
    (⟨[("x", mkJob "x" (some 10) (some 999) 0)], false⟩ : Scheduler) "x"
    (mkJob "x" (some 10) (some 999) 0) RunOutcome.ok 7 7 (by decide)
  exact ⟨h.1, by rw [h.2.1]; decide⟩

/-- C7 counterexample: a registered job currently marked as executing
(`is_running = true`).  `run_job_now` returns true and dispatches, but the
dispatched `Job.run` hits its `if self.cancelled or self.is_running:
return` guard: the callable is *not* invoked (result `skipped`, `run_count`
stays 0), refuting the claim that the callable is invoked even while the
job is currently executing. -/
theorem c7_running_job_skipped_cx :
    ((⟨[("x", { mkJob "x" (some 10) none 0 with is_running := true })], false⟩ :
      Scheduler).run_job_now "x" RunOutcome.ok 7 7).2.1 = true ∧
    ((⟨[("x", { mkJob "x" (some 10) none 0 with is_running := true })], false⟩ :
      Scheduler).run_job_now "x" RunOutcome.ok 7 7).2.2 = some RunResult.skipped ∧
    (((⟨[("x", { mkJob "x" (some 10) none 0 with is_running := true })], false⟩ :
      Scheduler).run_job_now "x" RunOutcome.ok 7 7).1.get_job "x").map Job.run_count =
      some 0 := by
  decide

/-- C8 (amended): for a registered job that is neither cancelled nor
currently marked running and whose interval is set *and nonzero*,
`pause_job` then `resume_job` both return true and the job reports
`should_run() == true` at the resume time (resume sets `next_run = now`);
moreover `resume_job` returns true only when the looked-up job's interval
is truthy (set and nonzero), and whenever it returns false it leaves the
scheduler unchanged. -/
theorem c8_pause_resume_amended (s : Scheduler) (name : String) (j : Job)
    (now i : Nat) (h : s.get_job name = some j) (hc : j.cancelled = false)
    (hr : j.is_running = false) (hi : j.interval = some i) (hiz : i ≠ 0) :
    (s.pause_job name).2 = true ∧
    ((s.pause_job name).1.resume_job name now).2 = true ∧
    ((((s.pause_job name).1.resume_job name now).1.get_job name).map
      (fun j2 => j2.should_run now)) = some true ∧
    (∀ (s2 : Scheduler) (n2 : String) (t : Nat),
      ((s2.resume_job n2 t).2 = true →
        ∃ j2, s2.get_job n2 = some j2 ∧ intervalTruthy j2.interval = true) ∧
      ((s2.resume_job n2 t).2 = false → (s2.resume_job n2 t).1 = s2)) := by
  have hpause : (s.pause_job name).1.get_job name =
      some { j with next_run := DTime.dmax } := by
    simp only [Scheduler.pause_job, h]
    simp only [Scheduler.get_job]
    rw [jobsLookup_updateJob]
    simp only [Scheduler.get_job] at h
    rw [h]
    rfl
  have htruthy : intervalTruthy j.interval = true := by
    simp [hi, intervalTruthy, hiz]
  refine ⟨by simp [Scheduler.pause_job, h], ?_, ?_, ?_⟩
  · simp [Scheduler.resume_job, hpause, htruthy]
  · have hres : (((s.pause_job name).1.resume_job name now).1.get_job name) =
        some { j with next_run := DTime.fin now } := by
      simp only [Scheduler.resume_job, hpause, htruthy, if_true]
      simp only [Scheduler.get_job]
      rw [jobsLookup_updateJob]
      simp only [Scheduler.get_job] at hpause
      rw [hpause]
      rfl
    rw [hres]
    simp [Job.should_run, hc, hr, dle]
  · intro s2 n2 t
    constructor
    · intro htrue
      match hs2 : s2.get_job n2 with
      | some j2 =>
          refine ⟨j2, rfl, ?_⟩
          by_contra hf
          simp [Scheduler.resume_job, hs2, hf] at htrue
      | none => simp [Scheduler.resume_job, hs2] at htrue
    · intro hfalse
      match hs2 : s2.get_job n2 with
      | some j2 =>
          by_cases ht : intervalTruthy j2.interval = true
          · simp [Scheduler.resume_job, hs2, ht] at hfalse
          · simp [Scheduler.resume_job, hs2, ht]
      | none => simp [Scheduler.resume_job, hs2]

/-- C8 witness: pause then resume on a concrete interval-5 job. -/
theorem c8_pause_resume_witness :
    (((⟨[("x", mkJob "x" (some 5) none 0)], false⟩ : Scheduler).pause_job "x").2 = true) ∧
    ((((⟨[("x", mkJob "x" (some 5) none 0)], false⟩ : Scheduler).pause_job "x").1.resume_job
      "x" 50).2 = true) ∧
    (((((⟨[("x", mkJob "x" (some 5) none 0)], false⟩ : Scheduler).pause_job "x").1.resume_job
      "x" 50).1.get_job "x").map (fun j2 => j2.should_run 50)) = some true := by
  have h := c8_pause_resume_amended
    (⟨[("x", mkJob "x" (some 5) none 0)], false⟩ : Scheduler) "x"
    (mkJob "x" (some 5) none 0) 50 5 (by decide) (by decide) (by decide)
    (by decide) (by decide)
  exact ⟨h.1, h.2.1, h.2.2.1⟩

/-- C8 counterexample: a registered job with `interval = 0` — set, but
falsy for `if job and job.interval:`.  After pause, resume returns false
and `next_run` stays at `datetime.max`, so `should_run()` is false,
refuting the claim for jobs whose interval is set to zero. -/
theorem c8_interval_zero_cx :
    (mkJob "x" (some 0) none 0).interval = some 0 ∧
    ((((⟨[("x", mkJob "x" (some 0) none 0)], false⟩ : Scheduler).pause_job
      "x").1.resume_job "x" 5).2 = false) ∧
    (((((⟨[("x", mkJob "x" (some 0) none 0)], false⟩ : Scheduler).pause_job
      "x").1.resume_job "x" 5).1.get_job "x").map (fun j2 => j2.should_run 5)) =
      some false := by
  decide

/-- An entry of the registry after `insertJob` is an old entry or carries
the inserted job. -/
theorem mem_insertJob (l : List (String × Job)) (name : String) (j : Job)
    (p : String × Job) (hp : p ∈ insertJob l name j) : p ∈ l ∨ p.2 = j := by
  unfold insertJob at hp
  by_cases h : l.any (fun q => q.1 == name) = true
  · rw [if_pos h] at hp
    rcases List.mem_map.mp hp with ⟨q, hq, rfl⟩
    by_cases hc : (q.1 == name) = true
    · right; simp [hc]
    · left; simpa [hc] using hq
  · rw [if_neg h] at hp
    rcases List.mem_append.mp hp with h1 | h1
    · left; exact h1
    · right
      rw [List.mem_singleton.mp h1]

/-- `insertJob` with an uncancelled job preserves `allActive` (list form). -/
theorem allActive_insert (l : List (String × Job)) (name : String) (j : Job)
    (hj : j.cancelled = false) (h : ∀ p ∈ l, p.2.cancelled = false) :
    ∀ p ∈ insertJob l name j, p.2.cancelled = false := by
  intro p hp
  rcases mem_insertJob l name j p hp with h1 | h1
  · exact h p h1
  · rw [h1]; exact hj

/-- `updateJob` preserves `allActive` when the update keeps every stored
job uncancelled (list form). -/
theorem allActive_updateJob (l : List (String × Job)) (name : String)
    (f : Job → Job) (h : ∀ p ∈ l, p.2.cancelled = false)
    (hf : ∀ p ∈ l, (f p.2).cancelled = false) :
    ∀ p ∈ updateJob l name f, p.2.cancelled = false := by
  intro p hp
  rcases List.mem_map.mp hp with ⟨q, hq, rfl⟩
  by_cases hc : (q.1 == name) = true
  · simpa [hc] using hf q hq
  · simpa [hc] using h q hq

/-- A successful registry lookup returns the job of some entry. -/
theorem jobsLookup_mem (l : List (String × Job)) (name : String) (j : Job)
    (h : jobsLookup l name = some j) : ∃ p ∈ l, p.2 = j := by
  unfold jobsLookup at h
  cases hf : l.find? (fun p => p.1 == name) with
  | none => rw [hf] at h; simp at h
  | some p =>
      rw [hf] at h
      simp at h
      exact ⟨p, List.mem_of_find?_eq_some hf, h⟩

/-- `remove_job` preserves the all-jobs-uncancelled invariant (the job it
cancels is deleted in the same step). -/
theorem remove_job_allActive (s : Scheduler) (n : String) (h : allActive s) :
    allActive (s.remove_job n).1 := by
  intro p hp
  simp only [Scheduler.remove_job] at hp
  split at hp
  · exact h p (List.mem_filter.mp hp).1
  · exact h p hp

/-- Every public scheduler method preserves the invariant that all
registered jobs are uncancelled. -/
theorem applySchedOp_allActive (s : Scheduler) (op : SchedOp)
    (h : allActive s) : allActive (applySchedOp s op) := by
  cases op with
  | add n i r t =>
      intro p hp
      simp only [applySchedOp, Scheduler.add_job] at hp
      exact allActive_insert s.jobs n _ rfl h p hp
  | addInterval n i t =>
      intro p hp
      simp only [applySchedOp, Scheduler.add_interval_job, Scheduler.add_job] at hp
      exact allActive_insert s.jobs n _ rfl h p hp
  | addCron n t hh mm =>
      intro p hp
      simp only [applySchedOp, Scheduler.add_cron_job, Scheduler.add_job] at hp
      exact allActive_insert s.jobs n _ rfl h p hp
  | remove n => exact remove_job_allActive s n h
  | pause n =>
      intro p hp
      simp only [applySchedOp, Scheduler.pause_job] at hp
      split at hp
      · have hp2 : p ∈ updateJob s.jobs n
            (fun j => { j with next_run := DTime.dmax }) := hp
        exact allActive_updateJob s.jobs n _ h (fun q hq => h q hq) p hp2
      · exact h p hp
  | resume n t =>
      intro p hp
      simp only [applySchedOp, Scheduler.resume_job] at hp
      split at hp
      · split at hp
        · have hp2 : p ∈ updateJob s.jobs n
              (fun j' => { j' with next_run := DTime.fin t }) := hp
          exact allActive_updateJob s.jobs n _ h (fun q hq => h q hq) p hp2
        · exact h p hp
      · exact h p hp
  | runNow n o t1 t2 =>
      intro p hp
      simp only [applySchedOp, Scheduler.run_job_now] at hp
      cases hg : s.get_job n with
      | none => rw [hg] at hp; exact h p hp
      | some j =>
          rw [hg] at hp
          simp only at hp
          have hjc : j.cancelled = false := by
            obtain ⟨q, hq, hqe⟩ := jobsLookup_mem s.jobs n j hg
            rw [← hqe]; exact h q hq
          refine allActive_updateJob s.jobs n _ h (fun q hq => ?_) p hp
          rw [run_preserves_cancelled]
          exact hjc
  | clear =>
      show allActive (s.clear_all_jobs)
      unfold Scheduler.clear_all_jobs
      have key : ∀ (names : List String) (s2 : Scheduler), allActive s2 →
          allActive (names.foldl (fun acc n => (acc.remove_job n).1) s2) := by
        intro names
        induction names with
        | nil => intro s2 h2; exact h2
        | cons n ns ih =>
            intro s2 h2
            exact ih _ (remove_job_allActive s2 n h2)
      exact key (s.jobs.map Prod.fst) s h

/-- Sequences of scheduler method calls preserve the all-uncancelled
invariant. -/
theorem applySchedOps_allActive (ops : List SchedOp) :
    ∀ s : Scheduler, allActive s → allActive (applySchedOps s ops) := by
  induction ops with
  | nil => intro s h; exact h
  | cons op ops ih =>
      intro s h
      exact ih _ (applySchedOp_allActive s op h)

/-- Size accounting for `add_job`/`remove_job` sequences: the registry
grows by one exactly on fresh adds and shrinks by one exactly on
successful removes, and the keys stay distinct. -/
theorem applyRegOps_size (ops : List RegOp) :
    ∀ s : Scheduler, (s.jobs.map Prod.fst).Nodup →
      ((applyRegOps s ops).1.jobs.length + (applyRegOps s ops).2.2 =
        (applyRegOps s ops).2.1 + s.jobs.length) ∧
      ((applyRegOps s ops).1.jobs.map Prod.fst).Nodup := by
  induction ops with
  | nil =>
      intro s hnd
      exact ⟨by simp [applyRegOps], by simpa [applyRegOps] using hnd⟩
  | cons op ops ih =>
      intro s hnd
      cases op with
      | add n i r t =>
          have hnd1 : ((s.add_job n i r t).1.jobs.map Prod.fst).Nodup := by
            simp only [Scheduler.add_job]
            exact insertJob_keys_nodup _ _ _ hnd
          obtain ⟨ihl, ihnd⟩ := ih (s.add_job n i r t).1 hnd1
          by_cases h : s.jobs.any (fun p => p.1 == n) = true
          · have hlen : (s.add_job n i r t).1.jobs.length = s.jobs.length := by
              simp only [Scheduler.add_job]
              exact insertJob_length_mem _ _ _ h
            refine ⟨?_, ?_⟩
            · simp only [applyRegOps, h, if_true]
              omega
            · simp only [applyRegOps]
              exact ihnd
          · have hb : s.jobs.any (fun p => p.1 == n) = false := Bool.eq_false_iff.mpr h
            have hlen : (s.add_job n i r t).1.jobs.length = s.jobs.length + 1 := by
              simp only [Scheduler.add_job]
              exact insertJob_length_not_mem _ _ _ hb
            refine ⟨?_, ?_⟩
            · simp only [applyRegOps, hb, Bool.false_eq_true, if_false]
              omega
            · simp only [applyRegOps]
              exact ihnd
      | remove n =>
          by_cases h : s.jobs.any (fun p => p.1 == n) = true
          · have hlen : (s.remove_job n).1.jobs.length + 1 = s.jobs.length := by
              simp only [Scheduler.remove_job, h, if_true]
              exact remove_filter_length s.jobs n h hnd
            have hnd1 : ((s.remove_job n).1.jobs.map Prod.fst).Nodup := by
              simp only [Scheduler.remove_job, h, if_true]
              exact filter_keys_nodup _ _ hnd
            have hb2 : (s.remove_job n).2 = true := by
              simp [Scheduler.remove_job, h]
            obtain ⟨ihl, ihnd⟩ := ih _ hnd1
            refine ⟨?_, ?_⟩
            · simp only [applyRegOps, hb2, if_true]
              omega
            · simp only [applyRegOps]
              exact ihnd
          · have hs : (s.remove_job n).1 = s := by
              simp [Scheduler.remove_job, h]
            have hb2 : (s.remove_job n).2 = false := by
              simp [Scheduler.remove_job, h]
            have hlen : (s.remove_job n).1.jobs.length = s.jobs.length := by
              rw [hs]
            obtain ⟨ihl, ihnd⟩ := ih (s.remove_job n).1 (by rw [hs]; exact hnd)
            refine ⟨?_, ?_⟩
            · simp only [applyRegOps, hb2, Bool.false_eq_true, if_false]
              omega
            · simp only [applyRegOps]
              exact ihnd

/-- C9 (amended): for every sequence of `add_job` and `remove_job` calls
on a fresh scheduler, `get_status()['total_jobs']` equals the number of
`add_job` calls whose name was not already registered at call time, minus
the number of `remove_job` calls that returned true (an `add_job` that
replaces an existing name does not change the count). -/
theorem c9_total_jobs_amended (ops : List RegOp) :
    (applyRegOps Scheduler.empty ops).1.get_status.total_jobs +
      (applyRegOps Scheduler.empty ops).2.2 =
      (applyRegOps Scheduler.empty ops).2.1 ∧
    (applyRegOps Scheduler.empty ops).1.get_status.total_jobs =
      (applyRegOps Scheduler.empty ops).2.1 -
        (applyRegOps Scheduler.empty ops).2.2 := by
  have h := (applyRegOps_size ops Scheduler.empty (by simp [Scheduler.empty])).1
  simp only [Scheduler.get_status, Scheduler.empty, List.length_nil] at h ⊢
  omega

/-- C10: for a scheduler manipulated only through its own methods, every
registered job has `cancelled = false`, so `get_status()`'s `active_jobs`
count always equals its `total_jobs` count. -/
theorem c10_active_equals_total (ops : List SchedOp) :
    allActive (applySchedOps Scheduler.empty ops) ∧
    (applySchedOps Scheduler.empty ops).get_status.active_jobs =
      (applySchedOps Scheduler.empty ops).get_status.total_jobs := by
  have hA : allActive (applySchedOps Scheduler.empty ops) := by
    apply applySchedOps_allActive
    intro p hp
    simp [Scheduler.empty] at hp
  refine ⟨hA, ?_⟩
  have heq : ((applySchedOps Scheduler.empty ops).jobs.filter
      (fun p => !p.2.cancelled)) = (applySchedOps Scheduler.empty ops).jobs :=
    List.filter_eq_self.mpr (fun p hp => by simp [hA p hp])
  simp only [Scheduler.get_status, heq]

/-- C4 (amended): calling `add_job` a second time with a name already
present leaves exactly one registry entry under that name, and it maps to
the newly constructed job; the superseded first job object is *not*
cancelled (`add_job` performs no action on the replaced entry beyond a log
warning), it merely drops out of the registry and is hence no longer
scheduled. -/
theorem c4_add_job_replace_amended (s : Scheduler) (name : String)
    (i1 i2 r1 r2 : Option Nat) (t1 t2 : Nat)
    (hnd : (s.jobs.map Prod.fst).Nodup) :
    (((s.add_job name i1 r1 t1).1.add_job name i2 r2 t2).1.jobs.countP
      (fun p => p.1 == name)) = 1 ∧
    ((s.add_job name i1 r1 t1).1.add_job name i2 r2 t2).1.get_job name =
      some (mkJob name i2 r2 t2) ∧
    (s.add_job name i1 r1 t1).2.cancelled = false := by
  refine ⟨?_, ?_, rfl⟩
  · have hnd1 : ((s.add_job name i1 r1 t1).1.jobs.map Prod.fst).Nodup := by
      simp only [Scheduler.add_job]
      exact insertJob_keys_nodup _ _ _ hnd
    simp only [Scheduler.add_job]
    exact insertJob_countP_self _ name (mkJob name i2 r2 t2) hnd1
  · simp only [Scheduler.add_job, Scheduler.get_job]
    exact jobsLookup_insertJob_self _ _ _

/-- C4 counterexample: registering `\"x\"` twice leaves one entry (the new
job with interval 7), but the superseded first job object has
`cancelled = false`, refuting the claim that replacement cancels it.
(`Scheduler.add_job` contains no call to `Job.cancel`.) -/
theorem c4_old_job_not_cancelled_cx :
    ((Scheduler.empty.add_job "x" (some 5) none 0).1.add_job "x" (some 7) none 3).1.jobs.length = 1 ∧
    (((Scheduler.empty.add_job "x" (some 5) none 0).1.add_job "x" (some 7) none 3).1.get_job "x").map
      Job.interval = some (some 7) ∧
    (Scheduler.empty.add_job "x" (some 5) none 0).2.cancelled = false := by
  decide

/-- C9 counterexample: two `add_job` calls with the same name `\"x\"` and no
removes leave `total_jobs = 1`, but the claimed count is
`2 adds - 0 successful removes = 2`. -/
theorem c9_duplicate_add_cx :
    (applyRegOps Scheduler.empty
      [RegOp.add "x" none none 0, RegOp.add "x" none none 0]).1.get_status.total_jobs = 1 ∧
    countAddOps [RegOp.add "x" none none 0, RegOp.add "x" none none 0] = 2 ∧
    (applyRegOps Scheduler.empty
      [RegOp.add "x" none none 0, RegOp.add "x" none none 0]).2.2 = 0 ∧
    (1 : Nat) ≠ 2 - 0 := by
  decide

/-- C4 witness: concrete duplicate registration under name `"x"`. -/
theorem c4_add_job_replace_witness :
    ((Scheduler.empty.add_job "x" (some 5) none 0).1.add_job "x" (some 7) none 3).1.jobs.countP
      (fun p => p.1 == "x") = 1 ∧
    ((Scheduler.empty.add_job "x" (some 5) none 0).1.add_job "x" (some 7) none 3).1.get_job "x" =
      some (mkJob "x" (some 7) none 3) := by
  have h := c4_add_job_replace_amended Scheduler.empty "x" (some 5) (some 7)
    none none 0 3 (by simp [Scheduler.empty])
  exact ⟨h.1, h.2.1⟩
